import Mathlib

/-!
Verification of the PostgreSQL datastore backend (`src/pg/datastore.rs`).

The backend is shallowly embedded: the relational state reachable through the
SQL statements of the source is a `DB` record of tables (lists of rows), and
each Rust method becomes a Lean function from inputs and a `DB` to a result
and (for mutations) an updated `DB`.  Nondeterministic inputs of the source
(`Uuid::new_v4()`, `NOW()`) are passed as explicit parameters.  UUIDs are
modelled as naturals, timestamps as naturals, JSON documents abstractly as
strings, and the `f32` edge weight as a rational number (the source only ever
compares weights, never computes with them).  Backend (PostgreSQL) failures
are modelled by the `PgError` type mirroring the `pg_error::Error` cases the
source matches on; the `Conversion` case aborts the process in the source
(a defect, not a value) and is therefore not a value of the model.
-/

set_option autoImplicit false
set_option linter.unusedVariables false

namespace IndraPg

/-- UUIDs (`uuid::Uuid`) are modelled as naturals. -/
abbrev Uuid := Nat

/-- JSON documents (`serde_json::Value`) are modelled abstractly as strings. -/
abbrev JsonValue := String

/-- The domain error taxonomy (`util::Error`) used by the backend. -/
inductive Error where
  | VertexDoesNotExist
  | EdgeDoesNotExist
  | AccountNotFound
  | MetadataDoesNotExist
  | WeightOutOfRange
  | OffsetOutOfRange
  | LimitOutOfRange
  | Unexpected (description : String)
  deriving DecidableEq, Repr

/-- SQLSTATE classes distinguished by the source's `set_edge` error match. -/
inductive SqlState where
  | NotNullViolation
  | ForeignKeyViolation
  | Other (code : String)
  deriving DecidableEq, Repr

/-- Backend-native errors (`pg_error::Error`), as matched by the source. -/
inductive PgError where
  | Db (code : SqlState) (message : String) (detail : Option String)
  | IoError
  deriving DecidableEq, Repr

/-- The SQLSTATE code string of a `SqlState`. -/
def SqlState.codeString : SqlState → String
  | .NotNullViolation => "23502"
  | .ForeignKeyViolation => "23503"
  | .Other code => code

/-- `pg_error_to_description`: renders a backend error as a diagnostic string. -/
def pg_error_to_description : PgError → String
  | .Db code message (some detail) =>
      "[" ++ code.codeString ++ "] " ++ message ++ ": " ++ detail
  | .Db code message none => "[" ++ code.codeString ++ "] " ++ message
  | .IoError => "Could not communicate with the database instance"

/-- The `From<pg_error::Error> for Error` conversion: every backend error that
reaches a `try!` is surfaced as `Error::Unexpected`. -/
def pgErrorToError (err : PgError) : Error :=
  .Unexpected (pg_error_to_description err)

/-- A row of the `accounts` table. -/
structure AccountRow where
  id : Uuid
  email : String
  salt : String
  api_secret_hash : String
  deriving DecidableEq, Repr

/-- A row of the `vertices` table. -/
structure VertexRow where
  id : Uuid
  t : String
  owner_id : Uuid
  deriving DecidableEq, Repr

/-- A row of the `edges` table. -/
structure EdgeRow where
  id : Uuid
  outbound_id : Uuid
  t : String
  inbound_id : Uuid
  weight : ℚ
  update_date : Nat
  deriving DecidableEq, Repr

/-- A row of the `global_metadata` table. -/
structure GlobalMetadataRow where
  key : String
  value : JsonValue
  deriving DecidableEq, Repr

/-- A row of the `account_metadata`, `vertex_metadata` or `edge_metadata`
tables, which all carry an owner key. -/
structure OwnedMetadataRow where
  owner_id : Uuid
  key : String
  value : JsonValue
  deriving DecidableEq, Repr

/-- The relational state reachable through the backend's SQL statements. -/
structure DB where
  accounts : List AccountRow
  vertices : List VertexRow
  edges : List EdgeRow
  global_metadata : List GlobalMetadataRow
  account_metadata : List OwnedMetadataRow
  vertex_metadata : List OwnedMetadataRow
  edge_metadata : List OwnedMetadataRow
  deriving DecidableEq, Repr

/-- The in-memory vertex model (`models::Vertex<Uuid>`). -/
structure Vertex where
  id : Uuid
  t : String
  deriving DecidableEq, Repr

/-- The in-memory edge model (`models::Edge<Uuid>`). -/
structure Edge where
  outbound_id : Uuid
  t : String
  inbound_id : Uuid
  weight : ℚ
  deriving DecidableEq, Repr

/-- The pool-size default of `PostgresDatastore::new` when `pool_size` is
`None`: twice the available CPUs, with a hard 1024 ceiling branch. -/
def default_pool_size (cpus : Nat) : Nat :=
  if cpus > 512 then 1024 else cpus * 2

/-- The pool size actually used by `PostgresDatastore::new` given the optional
caller-supplied size and the number of available CPUs. -/
def resolved_pool_size : Option Nat → Nat → Nat
  | some val, _ => val
  | none, cpus => default_pool_size cpus

/-- `PostgresDatastore`: the connection pool is not part of the relational
model; only the server-wide pepper secret matters to the modelled operations. -/
structure PostgresDatastore where
  secret : String
  deriving DecidableEq, Repr

/-- Modelled from the spec: `util::get_salted_hash` is not under `src/`.  The
spec describes it as an opaque-to-this-component salted, server-wide-pepper
mixed hash of the supplied secret; it is modelled as an injective tagged
concatenation of salt, optional pepper and secret. -/
def get_salted_hash (salt : String) (pepper : Option String) (secret : String) : String :=
  "hash:" ++ toString salt.length ++ ":" ++ salt ++
    (match pepper with
     | some p => ":" ++ toString p.length ++ ":" ++ p
     | none => ":none") ++ ":" ++ secret

/-- `PostgresDatastore::auth`: fetches the salt of the first `accounts` row
with the given id; if none, answers `false`; otherwise recomputes the expected
salted, peppered hash and answers whether some `accounts` row has the given id
and exactly that stored hash. -/
def PostgresDatastore.auth (self : PostgresDatastore) (db : DB) (account_id : Uuid)
    (secret : String) : Except Error Bool :=
  match db.accounts.find? (fun row => row.id == account_id) with
  | some row =>
      let expected_hash := get_salted_hash row.salt (some self.secret) secret
      if db.accounts.any (fun a => a.id == account_id && a.api_secret_hash == expected_hash) then
        .ok true
      else
        .ok false
  | none => .ok false

/-- `PostgresTransaction`: one backend transaction bound to one account.  The
connection and the transaction handle are not part of the relational model;
the bound account id is. -/
structure PostgresTransaction where
  account_id : Uuid
  deriving DecidableEq, Repr

/-- `PostgresTransaction::get_vertex`: `SELECT type FROM vertices WHERE id=$1
LIMIT 1`, first row wins, else `VertexDoesNotExist`. -/
def PostgresTransaction.get_vertex (self : PostgresTransaction) (db : DB) (id : Uuid) :
    Except Error Vertex :=
  match db.vertices.find? (fun row => row.id == id) with
  | some row => .ok ⟨id, row.t⟩
  | none => .error .VertexDoesNotExist

/-- `PostgresTransaction::set_vertex`: `UPDATE vertices SET type=$1 WHERE
id=$2 AND owner_id=$3 RETURNING 1`; success exactly when at least one row was
updated, else `VertexDoesNotExist`. -/
def PostgresTransaction.set_vertex (self : PostgresTransaction) (v : Vertex) (db : DB) :
    Except Error Unit × DB :=
  if db.vertices.any (fun row => row.id == v.id && row.owner_id == self.account_id) then
    (.ok (), { db with vertices := db.vertices.map (fun row =>
      if row.id == v.id && row.owner_id == self.account_id then { row with t := v.t } else row) })
  else
    (.error .VertexDoesNotExist, db)

/-- `PostgresTransaction::delete_vertex`: `DELETE FROM vertices WHERE id=$1
AND owner_id=$2 RETURNING 1`; success exactly when at least one row was
deleted, else `VertexDoesNotExist`. -/
def PostgresTransaction.delete_vertex (self : PostgresTransaction) (id : Uuid) (db : DB) :
    Except Error Unit × DB :=
  if db.vertices.any (fun row => row.id == id && row.owner_id == self.account_id) then
    (.ok (), { db with vertices := db.vertices.filter (fun row =>
      !(row.id == id && row.owner_id == self.account_id)) })
  else
    (.error .VertexDoesNotExist, db)

/-- Whether an `edges` row carries the unique key `(outbound_id, type,
inbound_id)` named by the constraint `edges_outbound_id_type_inbound_id_ukey`. -/
def edgeKeyMatches (outbound_id : Uuid) (t : String) (inbound_id : Uuid) (row : EdgeRow) : Bool :=
  row.outbound_id == outbound_id && row.t == t && row.inbound_id == inbound_id

/-- `PostgresTransaction::get_edge`: `SELECT weight FROM edges WHERE
outbound_id=$1 AND type=$2 AND inbound_id=$3 LIMIT 1`; first row wins, else
`EdgeDoesNotExist`. -/
def PostgresTransaction.get_edge (self : PostgresTransaction) (db : DB) (outbound_id : Uuid)
    (t : String) (inbound_id : Uuid) : Except Error Edge :=
  match db.edges.find? (edgeKeyMatches outbound_id t inbound_id) with
  | some row => .ok ⟨outbound_id, t, inbound_id, row.weight⟩
  | none => .error .EdgeDoesNotExist

/-- The `INSERT INTO edges ... ON CONFLICT ... DO UPDATE ... RETURNING 1`
statement of `set_edge`, run against the relational state.  The outbound
reference is resolved by the scalar sub-query `SELECT id FROM vertices WHERE
id=$2 AND owner_id=$3`; an empty sub-query yields NULL for the NOT NULL
column `outbound_id`, which PostgreSQL rejects (before conflict arbitration)
as a not-null violation.  A key conflict updates `weight` and `update_date`
of the conflicting row instead of inserting.  A genuine insert of an
`inbound_id` that references no vertex is rejected as a foreign-key
violation.  On success exactly one row is returned. -/
def run_set_edge_query (account_id : Uuid) (e : Edge) (new_id : Uuid) (now : Nat) (db : DB) :
    Except PgError (Nat × DB) :=
  if !db.vertices.any (fun row => row.id == e.outbound_id && row.owner_id == account_id) then
    .error (.Db .NotNullViolation
      "null value in column \"outbound_id\" violates not-null constraint" none)
  else if db.edges.any (edgeKeyMatches e.outbound_id e.t e.inbound_id) then
    .ok (1, { db with edges := db.edges.map (fun row =>
      if edgeKeyMatches e.outbound_id e.t e.inbound_id row then
        { row with weight := e.weight, update_date := now }
      else row) })
  else if !db.vertices.any (fun row => row.id == e.inbound_id) then
    .error (.Db .ForeignKeyViolation
      "insert or update on table \"edges\" violates foreign key constraint" none)
  else
    .ok (1, { db with edges :=
      db.edges ++ [⟨new_id, e.outbound_id, e.t, e.inbound_id, e.weight, now⟩] })

/-- The result handling of `set_edge` (the `match results` block): a returned
row means success, zero rows means the vertex sub-query failed; a not-null or
foreign-key violation becomes `VertexDoesNotExist`; any other database error
becomes `Unexpected`, as does an I/O failure. -/
def handle_set_edge_results : Except PgError Nat → Except Error Unit
  | .ok rows => if rows > 0 then .ok () else .error .VertexDoesNotExist
  | .error (.Db .NotNullViolation _ _) => .error .VertexDoesNotExist
  | .error (.Db .ForeignKeyViolation _ _) => .error .VertexDoesNotExist
  | .error (.Db (.Other _) message _) =>
      .error (.Unexpected ("Unknown database error: " ++ message))
  | .error .IoError => .error (.Unexpected "Database I/O error")

/-- `PostgresTransaction::set_edge`: rejects an out-of-range weight before any
backend call; otherwise opens a savepoint, runs the upsert, translates the
outcome through `handle_set_edge_results`, and rolls the savepoint back on
error (restoring the pre-upsert state) or commits it into the enclosing
transaction on success. -/
def PostgresTransaction.set_edge (self : PostgresTransaction) (e : Edge) (new_id : Uuid)
    (now : Nat) (db : DB) : Except Error Unit × DB :=
  if e.weight < -1 ∨ e.weight > 1 then
    (.error .WeightOutOfRange, db)
  else
    match run_set_edge_query self.account_id e new_id now db with
    | .ok (rows, db') =>
        match handle_set_edge_results (.ok rows) with
        | .ok () => (.ok (), db')
        | .error err => (.error err, db)
    | .error pgerr => (handle_set_edge_results (.error pgerr), db)

/-- `PostgresTransaction::delete_edge`: deletes the row keyed by the triple,
with the outbound reference constrained through the ownership sub-query;
`EdgeDoesNotExist` when nothing matched. -/
def PostgresTransaction.delete_edge (self : PostgresTransaction) (db : DB) (outbound_id : Uuid)
    (t : String) (inbound_id : Uuid) : Except Error Unit × DB :=
  let owned := db.vertices.any (fun row => row.id == outbound_id && row.owner_id == self.account_id)
  if owned && db.edges.any (edgeKeyMatches outbound_id t inbound_id) then
    (.ok (), { db with edges := db.edges.filter (fun row =>
      !(edgeKeyMatches outbound_id t inbound_id row)) })
  else
    (.error .EdgeDoesNotExist, db)

/-- The single-row result set of `SELECT COUNT(outbound_id) FROM edges WHERE
outbound_id=$1 AND type=$2`: a COUNT aggregate without GROUP BY always yields
exactly one row. -/
def count_query_rows (db : DB) (outbound_id : Uuid) (t : String) : List Int :=
  [((db.edges.filter (fun row => row.outbound_id == outbound_id && row.t == t)).length : Int)]

/-- `PostgresTransaction::get_edge_count`: returns the first row of the COUNT
query; the source's trailing branch (reached only on an empty result set)
aborts the process and is modelled as an `Unexpected` defect marker. -/
def PostgresTransaction.get_edge_count (self : PostgresTransaction) (db : DB)
    (outbound_id : Uuid) (t : String) : Except Error Int :=
  match count_query_rows db outbound_id t with
  | count :: _ => .ok count
  | [] => .error (.Unexpected "Unreachable point hit")

/-- Insertion step of the model of `ORDER BY update_date DESC` (PostgreSQL
guarantees the order only up to ties). -/
def insertByDateDesc (row : EdgeRow) : List EdgeRow → List EdgeRow
  | [] => [row]
  | head :: tail =>
      if row.update_date ≤ head.update_date then head :: insertByDateDesc row tail
      else row :: head :: tail

/-- Model of `ORDER BY update_date DESC`: sorts rows by descending
`update_date`. -/
def orderByDateDesc : List EdgeRow → List EdgeRow
  | [] => []
  | head :: tail => insertByDateDesc head (orderByDateDesc tail)

/-- The `(inbound_id, weight)` result rows of the `get_edge_range` query:
filter by outbound id and type, order by descending `update_date`, then apply
`OFFSET $3` and `LIMIT $4`. -/
def edge_range_rows (db : DB) (outbound_id : Uuid) (t : String) (offset : Int) (limit : Int) :
    List (Uuid × ℚ) :=
  ((((orderByDateDesc (db.edges.filter (fun row =>
      row.outbound_id == outbound_id && row.t == t))).drop offset.toNat).take limit.toNat).map
    (fun row => (row.inbound_id, row.weight)))

/-- The `(inbound_id, weight)` result rows of one `get_edge_time_range` query
variant: filter by outbound id, type and the variant's `update_date` bounds,
order by descending `update_date`, then apply `LIMIT`. -/
def time_range_rows (db : DB) (outbound_id : Uuid) (t : String) (dateFilter : Nat → Bool)
    (limit : Int) : List (Uuid × ℚ) :=
  (((orderByDateDesc (db.edges.filter (fun row =>
      row.outbound_id == outbound_id && row.t == t && dateFilter row.update_date))).take
    limit.toNat).map (fun row => (row.inbound_id, row.weight)))

/-- `PostgresTransaction::fill_edges`: turns `(inbound_id, weight)` result
rows into edge models, stamping the queried outbound id and type on each. -/
def PostgresTransaction.fill_edges (self : PostgresTransaction) (results : List (Uuid × ℚ))
    (outbound_id : Uuid) (t : String) : Except Error (List Edge) :=
  .ok (results.map (fun row => ⟨outbound_id, t, row.1, row.2⟩))

/-- `PostgresTransaction::get_edge_range`: validates `offset` then `limit`
before issuing the query, then fills edge models from the result rows. -/
def PostgresTransaction.get_edge_range (self : PostgresTransaction) (db : DB)
    (outbound_id : Uuid) (t : String) (offset : Int) (limit : Int) :
    Except Error (List Edge) :=
  if offset < 0 then
    .error .OffsetOutOfRange
  else if limit < 0 then
    .error .LimitOutOfRange
  else
    self.fill_edges (edge_range_rows db outbound_id t offset limit) outbound_id t

/-- `PostgresTransaction::get_edge_time_range`: validates `limit` before
issuing one of the four query variants (both bounds, high only, low only,
neither), then fills edge models from the result rows. -/
def PostgresTransaction.get_edge_time_range (self : PostgresTransaction) (db : DB)
    (outbound_id : Uuid) (t : String) (high low : Option Nat) (limit : Int) :
    Except Error (List Edge) :=
  if limit < 0 then
    .error .LimitOutOfRange
  else
    let results := match high, low with
      | some high_unboxed, some low_unboxed =>
          time_range_rows db outbound_id t
            (fun d => d ≤ high_unboxed && low_unboxed ≤ d) limit
      | some high_unboxed, none =>
          time_range_rows db outbound_id t (fun d => d ≤ high_unboxed) limit
      | none, some low_unboxed =>
          time_range_rows db outbound_id t (fun d => low_unboxed ≤ d) limit
      | none, none =>
          time_range_rows db outbound_id t (fun _ => true) limit
    self.fill_edges results outbound_id t

/-- `PostgresTransaction::handle_get_metadata_results`: succeed with the
first returned value, else `MetadataDoesNotExist`. -/
def PostgresTransaction.handle_get_metadata_results (self : PostgresTransaction)
    (results : List JsonValue) : Except Error JsonValue :=
  match results with
  | value :: _ => .ok value
  | [] => .error .MetadataDoesNotExist

/-- `PostgresTransaction::handle_update_metadata_results`: succeed when at
least one row was returned, else `MetadataDoesNotExist`. -/
def PostgresTransaction.handle_update_metadata_results (self : PostgresTransaction)
    (results : List Unit) : Except Error Unit :=
  match results with
  | _ :: _ => .ok ()
  | [] => .error .MetadataDoesNotExist

/-- `PostgresTransaction::get_global_metadata`: `SELECT value FROM
global_metadata WHERE key=$1`. -/
def PostgresTransaction.get_global_metadata (self : PostgresTransaction) (db : DB)
    (key : String) : Except Error JsonValue :=
  self.handle_get_metadata_results
    ((db.global_metadata.filter (fun row => row.key == key)).map (fun row => row.value))

/-- `PostgresTransaction::set_global_metadata`: `INSERT ... ON CONFLICT ON
CONSTRAINT global_metadata_pkey DO UPDATE SET value=$2 RETURNING 1` — a key
conflict replaces the value, otherwise a row is inserted; exactly one row is
returned either way. -/
def PostgresTransaction.set_global_metadata (self : PostgresTransaction) (db : DB)
    (key : String) (value : JsonValue) : Except Error Unit × DB :=
  let db' :=
    if db.global_metadata.any (fun row => row.key == key) then
      { db with global_metadata := db.global_metadata.map (fun row =>
        if row.key == key then { row with value := value } else row) }
    else
      { db with global_metadata := db.global_metadata ++ [⟨key, value⟩] }
  (self.handle_update_metadata_results [()], db')

/-- `PostgresTransaction::delete_global_metadata`: `DELETE FROM
global_metadata WHERE key=$1 RETURNING 1`. -/
def PostgresTransaction.delete_global_metadata (self : PostgresTransaction) (db : DB)
    (key : String) : Except Error Unit × DB :=
  let matched := db.global_metadata.filter (fun row => row.key == key)
  (self.handle_update_metadata_results (matched.map (fun _ => ())),
    { db with global_metadata := db.global_metadata.filter (fun row => !(row.key == key)) })

/-- `PostgresTransaction::get_account_metadata`: `SELECT value FROM
account_metadata WHERE owner_id=$1 AND key=$2`. -/
def PostgresTransaction.get_account_metadata (self : PostgresTransaction) (db : DB)
    (owner_id : Uuid) (key : String) : Except Error JsonValue :=
  self.handle_get_metadata_results
    ((db.account_metadata.filter (fun row => row.owner_id == owner_id && row.key == key)).map
      (fun row => row.value))

/-- `PostgresTransaction::set_account_metadata`: upsert on the
`account_metadata_pkey` `(owner_id, key)` conflict target, returning one row. -/
def PostgresTransaction.set_account_metadata (self : PostgresTransaction) (db : DB)
    (owner_id : Uuid) (key : String) (value : JsonValue) : Except Error Unit × DB :=
  let db' :=
    if db.account_metadata.any (fun row => row.owner_id == owner_id && row.key == key) then
      { db with account_metadata := db.account_metadata.map (fun row =>
        if row.owner_id == owner_id && row.key == key then { row with value := value } else row) }
    else
      { db with account_metadata := db.account_metadata ++ [⟨owner_id, key, value⟩] }
  (self.handle_update_metadata_results [()], db')

/-- `PostgresTransaction::delete_account_metadata`: `DELETE FROM
account_metadata WHERE owner_id=$1 AND key=$2 RETURNING 1`. -/
def PostgresTransaction.delete_account_metadata (self : PostgresTransaction) (db : DB)
    (owner_id : Uuid) (key : String) : Except Error Unit × DB :=
  let matched := db.account_metadata.filter (fun row => row.owner_id == owner_id && row.key == key)
  (self.handle_update_metadata_results (matched.map (fun _ => ())),
    { db with account_metadata := db.account_metadata.filter (fun row =>
      !(row.owner_id == owner_id && row.key == key)) })

/-- `PostgresTransaction::get_vertex_metadata`: `SELECT value FROM
vertex_metadata WHERE owner_id=$1 AND key=$2`. -/
def PostgresTransaction.get_vertex_metadata (self : PostgresTransaction) (db : DB)
    (owner_id : Uuid) (key : String) : Except Error JsonValue :=
  self.handle_get_metadata_results
    ((db.vertex_metadata.filter (fun row => row.owner_id == owner_id && row.key == key)).map
      (fun row => row.value))

/-- `PostgresTransaction::set_vertex_metadata`: upsert on the
`vertex_metadata_pkey` `(owner_id, key)` conflict target, returning one row. -/
def PostgresTransaction.set_vertex_metadata (self : PostgresTransaction) (db : DB)
    (owner_id : Uuid) (key : String) (value : JsonValue) : Except Error Unit × DB :=
  let db' :=
    if db.vertex_metadata.any (fun row => row.owner_id == owner_id && row.key == key) then
      { db with vertex_metadata := db.vertex_metadata.map (fun row =>
        if row.owner_id == owner_id && row.key == key then { row with value := value } else row) }
    else
      { db with vertex_metadata := db.vertex_metadata ++ [⟨owner_id, key, value⟩] }
  (self.handle_update_metadata_results [()], db')

/-- `PostgresTransaction::delete_vertex_metadata`: `DELETE FROM
vertex_metadata WHERE owner_id=$1 AND key=$2 RETURNING 1`. -/
def PostgresTransaction.delete_vertex_metadata (self : PostgresTransaction) (db : DB)
    (owner_id : Uuid) (key : String) : Except Error Unit × DB :=
  let matched := db.vertex_metadata.filter (fun row => row.owner_id == owner_id && row.key == key)
  (self.handle_update_metadata_results (matched.map (fun _ => ())),
    { db with vertex_metadata := db.vertex_metadata.filter (fun row =>
      !(row.owner_id == owner_id && row.key == key)) })

/-- The scalar sub-query `SELECT id FROM edges WHERE outbound_id=$1 AND
type=$2 AND inbound_id=$3` that resolves the owner key of the edge metadata
scope; NULL (here `none`) when no such edge exists. -/
def edge_metadata_owner (db : DB) (outbound_id : Uuid) (t : String) (inbound_id : Uuid) :
    Option Uuid :=
  (db.edges.find? (edgeKeyMatches outbound_id t inbound_id)).map (fun row => row.id)

/-- `PostgresTransaction::get_edge_metadata`: `SELECT value FROM edge_metadata
WHERE owner_id=(SELECT ...) AND key=$4`; a NULL owner key matches no row. -/
def PostgresTransaction.get_edge_metadata (self : PostgresTransaction) (db : DB)
    (outbound_id : Uuid) (t : String) (inbound_id : Uuid) (key : String) :
    Except Error JsonValue :=
  let owner := edge_metadata_owner db outbound_id t inbound_id
  self.handle_get_metadata_results
    ((db.edge_metadata.filter (fun row => owner == some row.owner_id && row.key == key)).map
      (fun row => row.value))

/-- `PostgresTransaction::set_edge_metadata`: upsert on the
`edge_metadata_pkey` conflict target with the owner key resolved through the
edge sub-query; when the edge does not exist the sub-query yields NULL, the
insert violates the owner column's not-null constraint, and the resulting
backend error is surfaced through the `From` conversion as `Unexpected`. -/
def PostgresTransaction.set_edge_metadata (self : PostgresTransaction) (db : DB)
    (outbound_id : Uuid) (t : String) (inbound_id : Uuid) (key : String) (value : JsonValue) :
    Except Error Unit × DB :=
  match edge_metadata_owner db outbound_id t inbound_id with
  | none =>
      (.error (pgErrorToError (.Db .NotNullViolation
        "null value in column \"owner_id\" violates not-null constraint" none)), db)
  | some owner =>
      let db' :=
        if db.edge_metadata.any (fun row => row.owner_id == owner && row.key == key) then
          { db with edge_metadata := db.edge_metadata.map (fun row =>
            if row.owner_id == owner && row.key == key then { row with value := value }
            else row) }
        else
          { db with edge_metadata := db.edge_metadata ++ [⟨owner, key, value⟩] }
      (self.handle_update_metadata_results [()], db')

/-- `PostgresTransaction::delete_edge_metadata`: `DELETE FROM edge_metadata
WHERE owner_id=(SELECT ...) AND key=$4 RETURNING 1`; a NULL owner key matches
no row. -/
def PostgresTransaction.delete_edge_metadata (self : PostgresTransaction) (db : DB)
    (outbound_id : Uuid) (t : String) (inbound_id : Uuid) (key : String) :
    Except Error Unit × DB :=
  let owner := edge_metadata_owner db outbound_id t inbound_id
  let matched := db.edge_metadata.filter (fun row => owner == some row.owner_id && row.key == key)
  (self.handle_update_metadata_results (matched.map (fun _ => ())),
    { db with edge_metadata := db.edge_metadata.filter (fun row =>
      !(owner == some row.owner_id && row.key == key)) })

/-! ## Helper lemmas -/

/-- An empty `DB`, used to instantiate theorems at concrete states. -/
def DB.empty : DB := ⟨[], [], [], [], [], [], []⟩

/-- Filtering (by a predicate `q` pointwise equal to the rewrite's guard `p`)
after a conditional row rewrite that preserves `q` commutes to rewriting the
filtered rows. -/
theorem filter_map_ite {α : Type} (p q : α → Bool) (f : α → α)
    (hpq : ∀ a, q a = p a) (hf : ∀ a, q (f a) = q a) :
    ∀ l : List α, (l.map (fun a => if p a then f a else a)).filter q = (l.filter q).map f := by
  intro l
  induction l with
  | nil => rfl
  | cons head tail ih =>
    by_cases hp : q head
    · have hp' : p head = true := (hpq head) ▸ hp
      simp only [List.map_cons, List.filter_cons, if_pos hp', hf, hp, ite_true, ih]
    · have hp' : p head = false := by
        rw [← hpq head]
        exact Bool.eq_false_iff.mpr hp
      simp only [List.map_cons, List.filter_cons, hp', Bool.false_eq_true, ite_false, hp, ih]

/-- Deleting the rows matching a predicate leaves nothing for that predicate
to match. -/
theorem filter_not_filter {α : Type} (p : α → Bool) (l : List α) :
    (l.filter (fun a => !p a)).filter p = [] := by
  induction l with
  | nil => rfl
  | cons head tail ih =>
    by_cases hp : p head
    · simp only [List.filter_cons, hp, Bool.not_true, Bool.false_eq_true, ite_false, ih]
    · have hp' : p head = false := Bool.eq_false_iff.mpr hp
      simp only [List.filter_cons, hp', Bool.not_false, ite_true, Bool.false_eq_true,
        ite_false, ih]

/-- `run_set_edge_query` only ever stores the supplied weight or weights that
were already stored. -/
theorem run_set_edge_query_preserves_weights (account_id : Uuid) (e : Edge) (new_id : Uuid)
    (now : Nat) (db : DB) (rows : Nat) (db' : DB)
    (hq : run_set_edge_query account_id e new_id now db = .ok (rows, db'))
    (hw : -1 ≤ e.weight ∧ e.weight ≤ 1)
    (hall : ∀ row ∈ db.edges, -1 ≤ row.weight ∧ row.weight ≤ 1) :
    ∀ row ∈ db'.edges, -1 ≤ row.weight ∧ row.weight ≤ 1 := by
  unfold run_set_edge_query at hq
  split at hq
  · exact absurd hq (by simp)
  · split at hq
    · simp only [Except.ok.injEq, Prod.mk.injEq] at hq
      obtain ⟨-, hdb⟩ := hq
      subst hdb
      intro row hrow
      simp only [List.mem_map] at hrow
      obtain ⟨a, ha, rfl⟩ := hrow
      by_cases hk : edgeKeyMatches e.outbound_id e.t e.inbound_id a
      · simp only [hk, ite_true]
        exact hw
      · simp only [hk, Bool.false_eq_true, ite_false]
        exact hall a ha
    · split at hq
      · exact absurd hq (by simp)
      · simp only [Except.ok.injEq, Prod.mk.injEq] at hq
        obtain ⟨-, hdb⟩ := hq
        subst hdb
        intro row hrow
        rcases List.mem_append.mp hrow with hmem | hmem
        · exact hall row hmem
        · simp only [List.mem_singleton] at hmem
          subst hmem
          exact hw

/-! ## Claims -/

/-- C8: when `PostgresDatastore::new` receives no pool size it uses twice the
available CPU count capped at 1024, and an explicit pool size is used as is. -/
theorem pool_size_spec :
    (∀ cpus : Nat, resolved_pool_size none cpus = min (2 * cpus) 1024) ∧
    (∀ n cpus : Nat, resolved_pool_size (some n) cpus = n) := by
  constructor
  · intro cpus
    simp only [resolved_pool_size, default_pool_size]
    by_cases h : cpus > 512
    · rw [if_pos h]
      omega
    · rw [if_neg h]
      omega
  · intro n cpus
    rfl

/-- C9: `get_edge_count` always succeeds with the (possibly zero) count of
edges carrying the queried outbound id and type; the source's trailing defect
branch is unreachable because the COUNT query yields exactly one row. -/
theorem get_edge_count_always_succeeds (tx : PostgresTransaction) (db : DB)
    (outbound_id : Uuid) (t : String) :
    tx.get_edge_count db outbound_id t =
      .ok ((db.edges.filter (fun row =>
        row.outbound_id == outbound_id && row.t == t)).length : Int) := rfl

/-- C6: `get_edge_range` rejects a negative offset with `OffsetOutOfRange`
(also when the limit is negative too) and a negative limit at non-negative
offset with `LimitOutOfRange`; `get_edge_time_range` rejects a negative limit
with `LimitOutOfRange`; each rejection is the same for every database state,
so it happens before any backend query. -/
theorem range_validation (tx : PostgresTransaction) (db : DB) (outbound_id : Uuid)
    (t : String) :
    (∀ offset limit : Int, offset < 0 →
      tx.get_edge_range db outbound_id t offset limit = .error .OffsetOutOfRange) ∧
    (∀ offset limit : Int, 0 ≤ offset → limit < 0 →
      tx.get_edge_range db outbound_id t offset limit = .error .LimitOutOfRange) ∧
    (∀ (high low : Option Nat) (limit : Int), limit < 0 →
      tx.get_edge_time_range db outbound_id t high low limit = .error .LimitOutOfRange) := by
  refine ⟨fun offset limit h => ?_, fun offset limit h1 h2 => ?_, fun high low limit h => ?_⟩
  · unfold PostgresTransaction.get_edge_range
    rw [if_pos h]
  · unfold PostgresTransaction.get_edge_range
    rw [if_neg (by omega), if_pos h2]
  · unfold PostgresTransaction.get_edge_time_range
    rw [if_pos h]

/-- Witness for C6 at concrete inputs. -/
theorem range_validation_witness :
    (PostgresTransaction.mk 0).get_edge_range DB.empty 1 "knows" (-1) (-5) =
      .error .OffsetOutOfRange ∧
    (PostgresTransaction.mk 0).get_edge_range DB.empty 1 "knows" 0 (-2) =
      .error .LimitOutOfRange ∧
    (PostgresTransaction.mk 0).get_edge_time_range DB.empty 1 "knows" none none (-3) =
      .error .LimitOutOfRange :=
  ⟨(range_validation ⟨0⟩ DB.empty 1 "knows").1 (-1) (-5) (by decide),
   (range_validation ⟨0⟩ DB.empty 1 "knows").2.1 0 (-2) (by decide) (by decide),
   (range_validation ⟨0⟩ DB.empty 1 "knows").2.2 none none (-3) (by decide)⟩

/-- C3: when every `vertices` row carrying the vertex's id is owned by a
different account than the transaction's (which covers both a vertex owned by
another account and a vertex that does not exist at all), `set_vertex` and
`delete_vertex` fail with `VertexDoesNotExist` and leave the state unchanged. -/
theorem vertex_ownership_gating (tx : PostgresTransaction) (v : Vertex) (db : DB)
    (h : ∀ row ∈ db.vertices, row.id = v.id → row.owner_id ≠ tx.account_id) :
    tx.set_vertex v db = (.error .VertexDoesNotExist, db) ∧
    tx.delete_vertex v.id db = (.error .VertexDoesNotExist, db) := by
  have hany : (db.vertices.any fun row =>
      row.id == v.id && row.owner_id == tx.account_id) = false := by
    simp only [Bool.eq_false_iff, ne_eq, List.any_eq_true, Bool.and_eq_true, beq_iff_eq,
      not_exists, not_and]
    intro row hrow hid
    exact h row hrow hid
  constructor
  · unfold PostgresTransaction.set_vertex
    rw [hany]
    rfl
  · unfold PostgresTransaction.delete_vertex
    rw [hany]
    rfl

/-- Witness for C3: account 2's transaction cannot mutate or delete a vertex
owned by account 1. -/
theorem vertex_ownership_gating_witness :
    (PostgresTransaction.mk 2).set_vertex ⟨10, "movie"⟩
        ⟨[], [⟨10, "person", 1⟩], [], [], [], [], []⟩ =
      (.error .VertexDoesNotExist, ⟨[], [⟨10, "person", 1⟩], [], [], [], [], []⟩) ∧
    (PostgresTransaction.mk 2).delete_vertex 10
        ⟨[], [⟨10, "person", 1⟩], [], [], [], [], []⟩ =
      (.error .VertexDoesNotExist, ⟨[], [⟨10, "person", 1⟩], [], [], [], [], []⟩) :=
  vertex_ownership_gating ⟨2⟩ ⟨10, "movie"⟩ ⟨[], [⟨10, "person", 1⟩], [], [], [], [], []⟩
    (by decide)

/-- C2: a weight outside `[-1, 1]` makes `set_edge` fail with
`WeightOutOfRange` and an unchanged state (the check precedes the savepoint
and the query), and `set_edge` preserves the invariant that every stored
weight lies within `[-1, 1]`. -/
theorem set_edge_weight_range (tx : PostgresTransaction) (e : Edge) (new_id : Uuid)
    (now : Nat) (db : DB) :
    ((e.weight < -1 ∨ e.weight > 1) →
      tx.set_edge e new_id now db = (.error .WeightOutOfRange, db)) ∧
    ((∀ row ∈ db.edges, -1 ≤ row.weight ∧ row.weight ≤ 1) →
      ∀ row ∈ (tx.set_edge e new_id now db).2.edges, -1 ≤ row.weight ∧ row.weight ≤ 1) := by
  constructor
  · intro h
    unfold PostgresTransaction.set_edge
    rw [if_pos h]
  · intro hall
    unfold PostgresTransaction.set_edge
    by_cases hw : e.weight < -1 ∨ e.weight > 1
    · rw [if_pos hw]
      exact hall
    · rw [if_neg hw]
      push_neg at hw
      cases hq : run_set_edge_query tx.account_id e new_id now db with
      | error pgerr =>
        exact hall
      | ok pair =>
        obtain ⟨rows, db'⟩ := pair
        dsimp only
        cases hh : handle_set_edge_results (.ok rows) with
        | ok u =>
          cases u
          exact run_set_edge_query_preserves_weights tx.account_id e new_id now db rows db'
            hq hw hall
        | error err =>
          exact hall

/-- Witness for C2: weight `2` is rejected before any write. -/
theorem set_edge_weight_range_witness :
    (PostgresTransaction.mk 0).set_edge ⟨1, "knows", 2, 2⟩ 9 100 DB.empty =
      (.error .WeightOutOfRange, DB.empty) :=
  (set_edge_weight_range ⟨0⟩ ⟨1, "knows", 2, 2⟩ 9 100 DB.empty).1 (Or.inr (by norm_num))

/-- Unfolding of the edge-key match into its field equations. -/
theorem edgeKeyMatches_eq_true {outbound_id : Uuid} {t : String} {inbound_id : Uuid}
    {row : EdgeRow} :
    edgeKeyMatches outbound_id t inbound_id row = true ↔
      row.outbound_id = outbound_id ∧ row.t = t ∧ row.inbound_id = inbound_id := by
  simp [edgeKeyMatches, and_assoc]

/-- A weight-and-date rewrite leaves the edge key untouched. -/
theorem edgeKeyMatches_update {outbound_id : Uuid} {t : String} {inbound_id : Uuid}
    (w : ℚ) (d : Nat) (row : EdgeRow) :
    edgeKeyMatches outbound_id t inbound_id { row with weight := w, update_date := d } =
      edgeKeyMatches outbound_id t inbound_id row := rfl

/-- The effect of the upsert statement on the `edges` table: rewrite the
conflicting row's weight and timestamp, or append a fresh row. -/
def upsertEdges (e : Edge) (new_id : Uuid) (now : Nat) (l : List EdgeRow) : List EdgeRow :=
  if l.any (edgeKeyMatches e.outbound_id e.t e.inbound_id) then
    l.map (fun row =>
      if edgeKeyMatches e.outbound_id e.t e.inbound_id row then
        { row with weight := e.weight, update_date := now }
      else row)
  else
    l ++ [⟨new_id, e.outbound_id, e.t, e.inbound_id, e.weight, now⟩]

/-- When the upsert query succeeds with a returned row, `set_edge` commits the
savepoint: it succeeds and adopts the upserted state. -/
theorem set_edge_eq_of_query_ok (tx : PostgresTransaction) (e : Edge) (new_id : Uuid)
    (now : Nat) (db : DB) (rows : Nat) (db' : DB)
    (hw : ¬(e.weight < -1 ∨ e.weight > 1))
    (hq : run_set_edge_query tx.account_id e new_id now db = .ok (rows, db'))
    (hpos : 0 < rows) :
    tx.set_edge e new_id now db = (.ok (), db') := by
  unfold PostgresTransaction.set_edge
  rw [if_neg hw, hq]
  have hh : handle_set_edge_results (.ok rows) = .ok () := by
    simp only [handle_set_edge_results]
    rw [if_pos hpos]
  dsimp only
  rw [hh]

/-- When the vertex sub-queries are satisfiable the upsert query succeeds,
returns one row, and rewrites the conflicting row or inserts a fresh one. -/
theorem run_set_edge_query_ok (account_id : Uuid) (e : Edge) (new_id : Uuid) (now : Nat)
    (db : DB)
    (hout : (db.vertices.any fun row =>
      row.id == e.outbound_id && row.owner_id == account_id) = true)
    (hin : (db.vertices.any fun row => row.id == e.inbound_id) = true) :
    run_set_edge_query account_id e new_id now db =
      .ok (1, { db with edges := upsertEdges e new_id now db.edges }) := by
  unfold run_set_edge_query upsertEdges
  rw [hout]
  by_cases hc : db.edges.any (edgeKeyMatches e.outbound_id e.t e.inbound_id) = true
  · rw [hc]
    rfl
  · rw [Bool.eq_false_iff.mpr hc, hin]
    rfl

/-- One upsert leaves exactly one row under the edge key, carrying the upsert's
weight and timestamp, provided the key was unique beforehand. -/
theorem upsert_filter_eq (e : Edge) (new_id : Uuid) (now : Nat) (l : List EdgeRow)
    (huniq : (l.filter (edgeKeyMatches e.outbound_id e.t e.inbound_id)).length ≤ 1) :
    ∃ rid,
      (upsertEdges e new_id now l).filter (edgeKeyMatches e.outbound_id e.t e.inbound_id) =
        [⟨rid, e.outbound_id, e.t, e.inbound_id, e.weight, now⟩] := by
  unfold upsertEdges
  by_cases hc : l.any (edgeKeyMatches e.outbound_id e.t e.inbound_id) = true
  · rw [if_pos hc,
      filter_map_ite _ _ _ (fun a => rfl) (fun a => edgeKeyMatches_update e.weight now a)]
    obtain ⟨r, hr, hkr⟩ := List.any_eq_true.mp hc
    have hne : l.filter (edgeKeyMatches e.outbound_id e.t e.inbound_id) ≠ [] := by
      intro hnil
      exact absurd hkr ((List.filter_eq_nil_iff.mp hnil) r hr)
    obtain ⟨r0, tl, heq⟩ := List.exists_cons_of_ne_nil hne
    have htl : tl = [] := by
      have := huniq
      rw [heq] at this
      simp only [List.length_cons] at this
      exact List.eq_nil_of_length_eq_zero (by omega)
    subst htl
    have hk0 : edgeKeyMatches e.outbound_id e.t e.inbound_id r0 = true :=
      (List.mem_filter.mp (heq ▸ List.mem_cons_self r0 [])).2
    obtain ⟨ho, ht, hi⟩ := edgeKeyMatches_eq_true.mp hk0
    refine ⟨r0.id, ?_⟩
    rw [heq]
    simp only [List.map_cons, List.map_nil, List.cons.injEq, and_true]
    cases r0
    simp_all
  · rw [if_neg hc, List.filter_append]
    have hfl : l.filter (edgeKeyMatches e.outbound_id e.t e.inbound_id) = [] := by
      rw [List.filter_eq_nil_iff]
      intro a ha
      exact fun hk => hc (List.any_eq_true.mpr ⟨a, ha, hk⟩)
    rw [hfl]
    refine ⟨new_id, ?_⟩
    simp [edgeKeyMatches]

/-- C1: with an in-range weight and a state whose edges respect the inbound
foreign key, `set_edge` on an edge whose outbound vertex is missing or not
owned by the bound account, or whose inbound vertex is missing, fails with
`VertexDoesNotExist` while the savepoint rollback leaves the enclosing
transaction's state exactly as it was (no row mutated, transaction still
usable and committable); a database error other than the translated not-null
or foreign-key violations, and an I/O failure, are surfaced as `Unexpected`;
and when the upsert query succeeds the savepoint is committed, `set_edge`
adopting the upserted state. -/
theorem set_edge_failure_isolation (tx : PostgresTransaction) (e : Edge) (new_id : Uuid)
    (now : Nat) (db : DB)
    (hw : ¬(e.weight < -1 ∨ e.weight > 1))
    (hfk : ∀ row ∈ db.edges, ∃ vrow ∈ db.vertices, vrow.id = row.inbound_id) :
    ((∀ row ∈ db.vertices, row.id = e.outbound_id → row.owner_id ≠ tx.account_id) →
      tx.set_edge e new_id now db = (.error .VertexDoesNotExist, db)) ∧
    ((∀ row ∈ db.vertices, row.id ≠ e.inbound_id) →
      tx.set_edge e new_id now db = (.error .VertexDoesNotExist, db)) ∧
    (∀ (code message : String) (detail : Option String),
      handle_set_edge_results (.error (.Db (.Other code) message detail)) =
        .error (.Unexpected ("Unknown database error: " ++ message))) ∧
    (handle_set_edge_results (.error .IoError) =
      .error (.Unexpected "Database I/O error")) ∧
    (∀ (rows : Nat) (db' : DB),
      run_set_edge_query tx.account_id e new_id now db = .ok (rows, db') → 0 < rows →
      tx.set_edge e new_id now db = (.ok (), db')) := by
  refine ⟨?_, ?_, fun code message detail => rfl, rfl, ?_⟩
  · intro hnotowned
    have hany : (db.vertices.any fun row =>
        row.id == e.outbound_id && row.owner_id == tx.account_id) = false := by
      simp only [Bool.eq_false_iff, ne_eq, List.any_eq_true, Bool.and_eq_true, beq_iff_eq,
        not_exists, not_and]
      intro row hrow hid
      exact hnotowned row hrow hid
    have hrun : run_set_edge_query tx.account_id e new_id now db =
        .error (.Db .NotNullViolation
          "null value in column \"outbound_id\" violates not-null constraint" none) := by
      unfold run_set_edge_query
      rw [hany]
      rfl
    unfold PostgresTransaction.set_edge
    rw [if_neg hw, hrun]
    rfl
  · intro hnoinbound
    have hinany : (db.vertices.any fun row => row.id == e.inbound_id) = false := by
      rw [List.any_eq_false]
      intro row hrow
      simp only [beq_iff_eq]
      exact hnoinbound row hrow
    have hconf : db.edges.any (edgeKeyMatches e.outbound_id e.t e.inbound_id) = false := by
      rw [List.any_eq_false]
      intro row hrow hk
      obtain ⟨-, -, hi⟩ := edgeKeyMatches_eq_true.mp hk
      obtain ⟨vrow, hv, hvid⟩ := hfk row hrow
      exact hnoinbound vrow hv (hvid.trans hi)
    unfold PostgresTransaction.set_edge
    rw [if_neg hw]
    by_cases hout : (db.vertices.any fun row =>
        row.id == e.outbound_id && row.owner_id == tx.account_id) = true
    · have hrun : run_set_edge_query tx.account_id e new_id now db =
          .error (.Db .ForeignKeyViolation
            "insert or update on table \"edges\" violates foreign key constraint" none) := by
        unfold run_set_edge_query
        rw [hout, hconf, hinany]
        rfl
      rw [hrun]
      rfl
    · have hrun : run_set_edge_query tx.account_id e new_id now db =
          .error (.Db .NotNullViolation
            "null value in column \"outbound_id\" violates not-null constraint" none) := by
        unfold run_set_edge_query
        rw [Bool.eq_false_iff.mpr hout]
        rfl
      rw [hrun]
      rfl
  · intro rows db' hq hpos
    exact set_edge_eq_of_query_ok tx e new_id now db rows db' hw hq hpos

/-- Witness for C1: account 2's transaction upserting an edge out of a vertex
owned by account 1 fails with `VertexDoesNotExist` and changes nothing. -/
theorem set_edge_failure_isolation_witness :
    (PostgresTransaction.mk 2).set_edge ⟨1, "knows", 1, 0⟩ 9 100
        ⟨[], [⟨1, "person", 1⟩], [], [], [], [], []⟩ =
      (.error .VertexDoesNotExist, ⟨[], [⟨1, "person", 1⟩], [], [], [], [], []⟩) :=
  (set_edge_failure_isolation ⟨2⟩ ⟨1, "knows", 1, 0⟩ 9 100
      ⟨[], [⟨1, "person", 1⟩], [], [], [], [], []⟩
      (by decide) (by simp)).1 (by decide)

/-- C7: `set_edge` is idempotent on the key `(outbound_id, type, inbound_id)`:
starting from a state where the bound account owns the outbound vertex, the
inbound vertex exists and the key is unique, two `set_edge` calls with the
same key and the same in-range weight both succeed and leave exactly one edge
row with that key and weight, its `update_date` refreshed to the second
call's timestamp, the second call adding no row. -/
theorem set_edge_idempotent (tx : PostgresTransaction) (e : Edge) (id1 id2 : Uuid)
    (now1 now2 : Nat) (db : DB)
    (hw : ¬(e.weight < -1 ∨ e.weight > 1))
    (hout : (db.vertices.any fun row =>
      row.id == e.outbound_id && row.owner_id == tx.account_id) = true)
    (hin : (db.vertices.any fun row => row.id == e.inbound_id) = true)
    (huniq : (db.edges.filter (edgeKeyMatches e.outbound_id e.t e.inbound_id)).length ≤ 1) :
    ∃ db1 db2,
      tx.set_edge e id1 now1 db = (.ok (), db1) ∧
      tx.set_edge e id2 now2 db1 = (.ok (), db2) ∧
      (∃ rid, db2.edges.filter (edgeKeyMatches e.outbound_id e.t e.inbound_id) =
        [⟨rid, e.outbound_id, e.t, e.inbound_id, e.weight, now2⟩]) ∧
      db2.edges.length = db1.edges.length := by
  obtain ⟨rid1, hfil1⟩ := upsert_filter_eq e id1 now1 db.edges huniq
  have h1 : tx.set_edge e id1 now1 db =
      (.ok (), { db with edges := upsertEdges e id1 now1 db.edges }) :=
    set_edge_eq_of_query_ok _ _ _ _ _ _ _ hw
      (run_set_edge_query_ok tx.account_id e id1 now1 db hout hin) Nat.one_pos
  have hany1 : (upsertEdges e id1 now1 db.edges).any
      (edgeKeyMatches e.outbound_id e.t e.inbound_id) = true := by
    rw [List.any_eq_true]
    have hm : (⟨rid1, e.outbound_id, e.t, e.inbound_id, e.weight, now1⟩ : EdgeRow) ∈
        (upsertEdges e id1 now1 db.edges).filter
          (edgeKeyMatches e.outbound_id e.t e.inbound_id) := by
      rw [hfil1]
      exact List.mem_cons_self _ _
    obtain ⟨hmem, hkey⟩ := List.mem_filter.mp hm
    exact ⟨_, hmem, hkey⟩
  have huniq1 : ((upsertEdges e id1 now1 db.edges).filter
      (edgeKeyMatches e.outbound_id e.t e.inbound_id)).length ≤ 1 := by
    rw [hfil1]
    exact le_refl 1
  obtain ⟨rid2, hfil2⟩ := upsert_filter_eq e id2 now2 (upsertEdges e id1 now1 db.edges) huniq1
  have h2 : tx.set_edge e id2 now2 { db with edges := upsertEdges e id1 now1 db.edges } =
      (.ok (),
        { db with edges := upsertEdges e id2 now2 (upsertEdges e id1 now1 db.edges) }) :=
    set_edge_eq_of_query_ok _ _ _ _ _ _ _ hw
      (run_set_edge_query_ok tx.account_id e id2 now2 _ hout hin) Nat.one_pos
  have hlen : ∀ l : List EdgeRow,
      l.any (edgeKeyMatches e.outbound_id e.t e.inbound_id) = true →
      (upsertEdges e id2 now2 l).length = l.length := by
    intro l hl
    unfold upsertEdges
    rw [if_pos hl, List.length_map]
  exact ⟨_, _, h1, h2, ⟨rid2, hfil2⟩, hlen _ hany1⟩

/-- Witness for C7 at a concrete state: two identical upserts leave one row
keyed `(1, "knows", 2)` with weight `0` and the second timestamp. -/
theorem set_edge_idempotent_witness :
    ∃ db1 db2,
      (PostgresTransaction.mk 5).set_edge ⟨1, "knows", 2, 0⟩ 21 100
          ⟨[], [⟨1, "a", 5⟩, ⟨2, "b", 5⟩], [], [], [], [], []⟩ = (.ok (), db1) ∧
      (PostgresTransaction.mk 5).set_edge ⟨1, "knows", 2, 0⟩ 22 200 db1 = (.ok (), db2) ∧
      (∃ rid, db2.edges.filter (edgeKeyMatches 1 "knows" 2) =
        [⟨rid, 1, "knows", 2, 0, 200⟩]) ∧
      db2.edges.length = db1.edges.length :=
  set_edge_idempotent ⟨5⟩ ⟨1, "knows", 2, 0⟩ 21 22 100 200
    ⟨[], [⟨1, "a", 5⟩, ⟨2, "b", 5⟩], [], [], [], [], []⟩
    (by decide) (by decide) (by decide) (by decide)

/-- C4: `auth` never fails with a domain error; it answers `false` for an
unknown account id, and (with unique account ids, as the `accounts` primary
key guarantees) it answers `true` exactly when an `accounts` row with the
given id stores the hash recomputed by `get_salted_hash` from that row's
salt, the server-wide pepper and the supplied secret. -/
theorem auth_spec (ds : PostgresDatastore) (db : DB) (account_id : Uuid) (secret : String)
    (huniq : (db.accounts.map AccountRow.id).Nodup) :
    (∃ b, ds.auth db account_id secret = .ok b) ∧
    ((∀ row ∈ db.accounts, row.id ≠ account_id) → ds.auth db account_id secret = .ok false) ∧
    (ds.auth db account_id secret = .ok true ↔
      ∃ row ∈ db.accounts, row.id = account_id ∧
        row.api_secret_hash = get_salted_hash row.salt (some ds.secret) secret) := by
  have hinj : ∀ a ∈ db.accounts, ∀ b ∈ db.accounts, a.id = b.id → a = b :=
    fun a ha b hb hab => List.inj_on_of_nodup_map huniq ha hb hab
  unfold PostgresDatastore.auth
  cases hf : db.accounts.find? (fun row => row.id == account_id) with
  | none =>
    refine ⟨⟨false, rfl⟩, fun _ => rfl, ?_⟩
    constructor
    · intro h
      exact absurd h (by simp)
    · rintro ⟨row, hrow, hid, -⟩
      have hne := List.find?_eq_none.mp hf row hrow
      simp only [beq_iff_eq] at hne
      exact absurd hid hne
  | some row =>
    dsimp only
    have hrowmem := List.mem_of_find?_eq_some hf
    have hrowid : row.id = account_id := by
      have := List.find?_some hf
      simpa using this
    by_cases hmatch : (db.accounts.any fun a =>
        a.id == account_id &&
          a.api_secret_hash == get_salted_hash row.salt (some ds.secret) secret) = true
    · rw [if_pos hmatch]
      refine ⟨⟨true, rfl⟩, ?_, ?_⟩
      · intro h
        exact absurd hrowid (h row hrowmem)
      · constructor
        · intro _
          obtain ⟨a, ha, hmm⟩ := List.any_eq_true.mp hmatch
          simp only [Bool.and_eq_true, beq_iff_eq] at hmm
          have haeq : a = row := hinj a ha row hrowmem (hmm.1.trans hrowid.symm)
          refine ⟨a, ha, hmm.1, ?_⟩
          rw [hmm.2, haeq]
        · intro _
          rfl
    · rw [if_neg hmatch]
      refine ⟨⟨false, rfl⟩, fun _ => rfl, ?_⟩
      constructor
      · intro h
        exact absurd h (by simp)
      · rintro ⟨a, ha, haid, hahash⟩
        have haeq : a = row := hinj a ha row hrowmem (haid.trans hrowid.symm)
        refine absurd (List.any_eq_true.mpr ⟨a, ha, ?_⟩) hmatch
        simp only [Bool.and_eq_true, beq_iff_eq]
        exact ⟨haid, by rw [hahash, haeq]⟩

/-- Witness for C4: the stored hash authenticates, at a concrete account. -/
theorem auth_spec_witness :
    (PostgresDatastore.mk "pepper").auth
        ⟨[⟨7, "a@example.com", "s4lt", get_salted_hash "s4lt" (some "pepper") "sec"⟩],
          [], [], [], [], [], []⟩ 7 "sec" = .ok true :=
  (auth_spec ⟨"pepper"⟩
      ⟨[⟨7, "a@example.com", "s4lt", get_salted_hash "s4lt" (some "pepper") "sec"⟩],
        [], [], [], [], [], []⟩ 7 "sec" (by simp)).2.2.mpr
    ⟨⟨7, "a@example.com", "s4lt", get_salted_hash "s4lt" (some "pepper") "sec"⟩,
      List.mem_cons_self _ _, rfl, rfl⟩

/-- The range query's result rows respect `LIMIT`. -/
theorem edge_range_rows_length_le (db : DB) (outbound_id : Uuid) (t : String)
    (offset limit : Int) :
    (edge_range_rows db outbound_id t offset limit).length ≤ limit.toNat := by
  unfold edge_range_rows
  rw [List.length_map]
  exact List.length_take_le _ _

/-- The time-range query's result rows respect `LIMIT`. -/
theorem time_range_rows_length_le (db : DB) (outbound_id : Uuid) (t : String)
    (dateFilter : Nat → Bool) (limit : Int) :
    (time_range_rows db outbound_id t dateFilter limit).length ≤ limit.toNat := by
  unfold time_range_rows
  rw [List.length_map]
  exact List.length_take_le _ _

/-- `fill_edges` stamps the queried outbound id and type on every result and
preserves the result-row count. -/
theorem fill_edges_shape (tx : PostgresTransaction) (rows : List (Uuid × ℚ))
    (outbound_id : Uuid) (t : String) (edges : List Edge)
    (h : tx.fill_edges rows outbound_id t = .ok edges) :
    (∀ e ∈ edges, e.outbound_id = outbound_id ∧ e.t = t) ∧ edges.length = rows.length := by
  simp only [PostgresTransaction.fill_edges, Except.ok.injEq] at h
  subst h
  constructor
  · intro e he
    obtain ⟨r, hr, rfl⟩ := List.mem_map.mp he
    exact ⟨rfl, rfl⟩
  · simp

/-- C10: every edge returned by a successful `get_edge_range` or
`get_edge_time_range` carries the queried outbound id and type, and the
result holds at most `limit` edges. -/
theorem range_results_shape (tx : PostgresTransaction) (db : DB) (outbound_id : Uuid)
    (t : String) :
    (∀ (offset limit : Int) (edges : List Edge),
      tx.get_edge_range db outbound_id t offset limit = .ok edges →
        (∀ e ∈ edges, e.outbound_id = outbound_id ∧ e.t = t) ∧
        (edges.length : Int) ≤ limit) ∧
    (∀ (high low : Option Nat) (limit : Int) (edges : List Edge),
      tx.get_edge_time_range db outbound_id t high low limit = .ok edges →
        (∀ e ∈ edges, e.outbound_id = outbound_id ∧ e.t = t) ∧
        (edges.length : Int) ≤ limit) := by
  constructor
  · intro offset limit edges h
    unfold PostgresTransaction.get_edge_range at h
    by_cases ho : offset < 0
    · rw [if_pos ho] at h
      exact absurd h (by simp)
    · rw [if_neg ho] at h
      by_cases hl : limit < 0
      · rw [if_pos hl] at h
        exact absurd h (by simp)
      · rw [if_neg hl] at h
        obtain ⟨hfields, hlen⟩ := fill_edges_shape tx _ outbound_id t edges h
        refine ⟨hfields, ?_⟩
        have h1 : edges.length ≤ limit.toNat :=
          hlen ▸ edge_range_rows_length_le db outbound_id t offset limit
        calc (edges.length : Int) ≤ (limit.toNat : Int) := by exact_mod_cast h1
          _ = limit := Int.toNat_of_nonneg (le_of_not_lt hl)
  · intro high low limit edges h
    unfold PostgresTransaction.get_edge_time_range at h
    by_cases hl : limit < 0
    · rw [if_pos hl] at h
      exact absurd h (by simp)
    · rw [if_neg hl] at h
      have hfin : ∀ dateFilter : Nat → Bool,
          tx.fill_edges (time_range_rows db outbound_id t dateFilter limit) outbound_id t =
            .ok edges →
          (∀ e ∈ edges, e.outbound_id = outbound_id ∧ e.t = t) ∧
          (edges.length : Int) ≤ limit := by
        intro dateFilter hh
        obtain ⟨hfields, hlen⟩ := fill_edges_shape tx _ outbound_id t edges hh
        refine ⟨hfields, ?_⟩
        have h1 : edges.length ≤ limit.toNat :=
          hlen ▸ time_range_rows_length_le db outbound_id t dateFilter limit
        calc (edges.length : Int) ≤ (limit.toNat : Int) := by exact_mod_cast h1
          _ = limit := Int.toNat_of_nonneg (le_of_not_lt hl)
      rcases high with _ | high_unboxed <;> rcases low with _ | low_unboxed
      · exact hfin _ h
      · exact hfin _ h
      · exact hfin _ h
      · exact hfin _ h

/-- Witness for C10: a one-edge state queried with limit 10. -/
theorem range_results_shape_witness :
    (∀ e ∈ [(⟨1, "knows", 2, 0⟩ : Edge)], e.outbound_id = 1 ∧ e.t = "knows") ∧
    (([(⟨1, "knows", 2, 0⟩ : Edge)].length : Int) ≤ 10) :=
  (range_results_shape ⟨0⟩ ⟨[], [], [⟨50, 1, "knows", 2, 0, 10⟩], [], [], [], []⟩
      1 "knows").1 0 10 [⟨1, "knows", 2, 0⟩] (by rfl)

/-- `handle_get_metadata_results` fails exactly on an empty result set. -/
theorem handle_get_error_iff (tx : PostgresTransaction) (results : List JsonValue) :
    tx.handle_get_metadata_results results = .error .MetadataDoesNotExist ↔ results = [] := by
  cases results <;> simp [PostgresTransaction.handle_get_metadata_results]

/-- `handle_update_metadata_results` fails exactly on an empty result set. -/
theorem handle_update_error_iff (tx : PostgresTransaction) (results : List Unit) :
    tx.handle_update_metadata_results results = .error .MetadataDoesNotExist ↔ results = [] := by
  cases results <;> simp [PostgresTransaction.handle_update_metadata_results]

/-- Global metadata: when no row carries the key, get fails with
`MetadataDoesNotExist` and delete fails leaving the state unchanged. -/
theorem global_no_match (tx : PostgresTransaction) (db : DB) (k : String)
    (h : ∀ row ∈ db.global_metadata, row.key ≠ k) :
    tx.get_global_metadata db k = .error .MetadataDoesNotExist ∧
    tx.delete_global_metadata db k = (.error .MetadataDoesNotExist, db) := by
  have hfl : db.global_metadata.filter (fun row => row.key == k) = [] := by
    rw [List.filter_eq_nil_iff]
    intro a ha
    simp only [beq_iff_eq]
    exact h a ha
  have hkeep : db.global_metadata.filter (fun row => !(row.key == k)) = db.global_metadata := by
    rw [List.filter_eq_self]
    intro a ha
    simp only [Bool.not_eq_true', beq_eq_false_iff_ne, ne_eq]
    exact h a ha
  constructor
  · simp only [PostgresTransaction.get_global_metadata]
    rw [hfl]
    rfl
  · simp only [PostgresTransaction.delete_global_metadata]
    rw [hfl, hkeep]
    rfl

/-- Global metadata: set is an upsert that always succeeds, and a subsequent
get observes exactly the value just written. -/
theorem global_set_get (tx : PostgresTransaction) (db : DB) (k : String) (v : JsonValue) :
    (tx.set_global_metadata db k v).1 = .ok () ∧
    tx.get_global_metadata (tx.set_global_metadata db k v).2 k = .ok v := by
  refine ⟨rfl, ?_⟩
  simp only [PostgresTransaction.set_global_metadata, PostgresTransaction.get_global_metadata]
  rw [apply_ite DB.global_metadata]
  dsimp only
  by_cases hc : (db.global_metadata.any fun row => row.key == k) = true
  · rw [if_pos hc, filter_map_ite (fun row => row.key == k) (fun row => row.key == k)
      (fun row => { row with value := v }) (fun a => rfl) (fun a => rfl) db.global_metadata]
    have hne : db.global_metadata.filter (fun row => row.key == k) ≠ [] := by
      obtain ⟨r, hr, hpr⟩ := List.any_eq_true.mp hc
      intro hnil
      exact absurd hpr (List.filter_eq_nil_iff.mp hnil r hr)
    obtain ⟨r0, tl, heq⟩ := List.exists_cons_of_ne_nil hne
    rw [heq]
    rfl
  · rw [if_neg hc, List.filter_append]
    have hfl : db.global_metadata.filter (fun row => row.key == k) = [] := by
      rw [List.filter_eq_nil_iff]
      intro a ha hp
      exact hc (List.any_eq_true.mpr ⟨a, ha, hp⟩)
    rw [hfl]
    simp [List.filter_cons, PostgresTransaction.handle_get_metadata_results]

/-- Global metadata: after a delete, get fails exactly as for a key that was
never set. -/
theorem global_delete_get (tx : PostgresTransaction) (db : DB) (k : String) :
    tx.get_global_metadata (tx.delete_global_metadata db k).2 k =
      .error .MetadataDoesNotExist := by
  simp only [PostgresTransaction.delete_global_metadata, PostgresTransaction.get_global_metadata]
  rw [filter_not_filter]
  rfl

/-- Account metadata: when no row carries the owner key and key, get
fails with `MetadataDoesNotExist` and delete fails leaving the state
unchanged. -/
theorem account_no_match (tx : PostgresTransaction) (db : DB) (o : Uuid) (k : String)
    (h : ∀ row ∈ db.account_metadata, row.owner_id = o → row.key ≠ k) :
    tx.get_account_metadata db o k = .error .MetadataDoesNotExist ∧
    tx.delete_account_metadata db o k = (.error .MetadataDoesNotExist, db) := by
  have hfl : db.account_metadata.filter (fun row => row.owner_id == o && row.key == k) = [] := by
    rw [List.filter_eq_nil_iff]
    intro a ha
    simp only [Bool.and_eq_true, beq_iff_eq, not_and]
    exact h a ha
  have hkeep : db.account_metadata.filter (fun row => !(row.owner_id == o && row.key == k)) =
      db.account_metadata := by
    rw [List.filter_eq_self]
    intro a ha
    simp only [Bool.not_eq_true', Bool.eq_false_iff, ne_eq, Bool.and_eq_true, beq_iff_eq,
      not_and]
    exact h a ha
  constructor
  · simp only [PostgresTransaction.get_account_metadata]
    rw [hfl]
    rfl
  · simp only [PostgresTransaction.delete_account_metadata]
    rw [hfl, hkeep]
    rfl

/-- Account metadata: set is an upsert that always succeeds, and a
subsequent get observes exactly the value just written. -/
theorem account_set_get (tx : PostgresTransaction) (db : DB) (o : Uuid) (k : String)
    (v : JsonValue) :
    (tx.set_account_metadata db o k v).1 = .ok () ∧
    tx.get_account_metadata (tx.set_account_metadata db o k v).2 o k = .ok v := by
  refine ⟨rfl, ?_⟩
  simp only [PostgresTransaction.set_account_metadata, PostgresTransaction.get_account_metadata]
  rw [apply_ite DB.account_metadata]
  dsimp only
  by_cases hc : (db.account_metadata.any fun row => row.owner_id == o && row.key == k) = true
  · rw [if_pos hc, filter_map_ite (fun row => row.owner_id == o && row.key == k)
      (fun row => row.owner_id == o && row.key == k)
      (fun row => { row with value := v }) (fun a => rfl) (fun a => rfl) db.account_metadata]
    have hne : db.account_metadata.filter (fun row => row.owner_id == o && row.key == k) ≠ [] := by
      obtain ⟨r, hr, hpr⟩ := List.any_eq_true.mp hc
      intro hnil
      exact absurd hpr (List.filter_eq_nil_iff.mp hnil r hr)
    obtain ⟨r0, tl, heq⟩ := List.exists_cons_of_ne_nil hne
    rw [heq]
    rfl
  · rw [if_neg hc, List.filter_append]
    have hfl : db.account_metadata.filter (fun row => row.owner_id == o && row.key == k) = [] := by
      rw [List.filter_eq_nil_iff]
      intro a ha hp
      exact hc (List.any_eq_true.mpr ⟨a, ha, hp⟩)
    rw [hfl]
    simp [List.filter_cons, PostgresTransaction.handle_get_metadata_results]

/-- Account metadata: after a delete, get fails exactly as for a key
that was never set. -/
theorem account_delete_get (tx : PostgresTransaction) (db : DB) (o : Uuid) (k : String) :
    tx.get_account_metadata (tx.delete_account_metadata db o k).2 o k = .error .MetadataDoesNotExist := by
  simp only [PostgresTransaction.delete_account_metadata, PostgresTransaction.get_account_metadata]
  rw [filter_not_filter]
  rfl

/-- Vertex metadata: when no row carries the owner key and key, get
fails with `MetadataDoesNotExist` and delete fails leaving the state
unchanged. -/
theorem vertex_no_match (tx : PostgresTransaction) (db : DB) (o : Uuid) (k : String)
    (h : ∀ row ∈ db.vertex_metadata, row.owner_id = o → row.key ≠ k) :
    tx.get_vertex_metadata db o k = .error .MetadataDoesNotExist ∧
    tx.delete_vertex_metadata db o k = (.error .MetadataDoesNotExist, db) := by
  have hfl : db.vertex_metadata.filter (fun row => row.owner_id == o && row.key == k) = [] := by
    rw [List.filter_eq_nil_iff]
    intro a ha
    simp only [Bool.and_eq_true, beq_iff_eq, not_and]
    exact h a ha
  have hkeep : db.vertex_metadata.filter (fun row => !(row.owner_id == o && row.key == k)) =
      db.vertex_metadata := by
    rw [List.filter_eq_self]
    intro a ha
    simp only [Bool.not_eq_true', Bool.eq_false_iff, ne_eq, Bool.and_eq_true, beq_iff_eq,
      not_and]
    exact h a ha
  constructor
  · simp only [PostgresTransaction.get_vertex_metadata]
    rw [hfl]
    rfl
  · simp only [PostgresTransaction.delete_vertex_metadata]
    rw [hfl, hkeep]
    rfl

/-- Vertex metadata: set is an upsert that always succeeds, and a
subsequent get observes exactly the value just written. -/
theorem vertex_set_get (tx : PostgresTransaction) (db : DB) (o : Uuid) (k : String)
    (v : JsonValue) :
    (tx.set_vertex_metadata db o k v).1 = .ok () ∧
    tx.get_vertex_metadata (tx.set_vertex_metadata db o k v).2 o k = .ok v := by
  refine ⟨rfl, ?_⟩
  simp only [PostgresTransaction.set_vertex_metadata, PostgresTransaction.get_vertex_metadata]
  rw [apply_ite DB.vertex_metadata]
  dsimp only
  by_cases hc : (db.vertex_metadata.any fun row => row.owner_id == o && row.key == k) = true
  · rw [if_pos hc, filter_map_ite (fun row => row.owner_id == o && row.key == k)
      (fun row => row.owner_id == o && row.key == k)
      (fun row => { row with value := v }) (fun a => rfl) (fun a => rfl) db.vertex_metadata]
    have hne : db.vertex_metadata.filter (fun row => row.owner_id == o && row.key == k) ≠ [] := by
      obtain ⟨r, hr, hpr⟩ := List.any_eq_true.mp hc
      intro hnil
      exact absurd hpr (List.filter_eq_nil_iff.mp hnil r hr)
    obtain ⟨r0, tl, heq⟩ := List.exists_cons_of_ne_nil hne
    rw [heq]
    rfl
  · rw [if_neg hc, List.filter_append]
    have hfl : db.vertex_metadata.filter (fun row => row.owner_id == o && row.key == k) = [] := by
      rw [List.filter_eq_nil_iff]
      intro a ha hp
      exact hc (List.any_eq_true.mpr ⟨a, ha, hp⟩)
    rw [hfl]
    simp [List.filter_cons, PostgresTransaction.handle_get_metadata_results]

/-- Vertex metadata: after a delete, get fails exactly as for a key
that was never set. -/
theorem vertex_delete_get (tx : PostgresTransaction) (db : DB) (o : Uuid) (k : String) :
    tx.get_vertex_metadata (tx.delete_vertex_metadata db o k).2 o k = .error .MetadataDoesNotExist := by
  simp only [PostgresTransaction.delete_vertex_metadata, PostgresTransaction.get_vertex_metadata]
  rw [filter_not_filter]
  rfl

/-- Updating a metadata table leaves the edge-owner sub-query unchanged. -/
theorem edge_metadata_owner_update (db : DB) (em : List OwnedMetadataRow) (outbound_id : Uuid)
    (t : String) (inbound_id : Uuid) :
    edge_metadata_owner { db with edge_metadata := em } outbound_id t inbound_id =
      edge_metadata_owner db outbound_id t inbound_id := rfl

/-- Edge metadata: when no row matches the resolved owner key and key
(including when the edge itself does not exist and the sub-query yields NULL),
get fails with `MetadataDoesNotExist` and delete fails leaving the state
unchanged. -/
theorem edge_no_match (tx : PostgresTransaction) (db : DB) (o : Uuid) (t : String) (i : Uuid)
    (k : String)
    (h : ∀ row ∈ db.edge_metadata,
      edge_metadata_owner db o t i = some row.owner_id → row.key ≠ k) :
    tx.get_edge_metadata db o t i k = .error .MetadataDoesNotExist ∧
    tx.delete_edge_metadata db o t i k = (.error .MetadataDoesNotExist, db) := by
  have hfl : db.edge_metadata.filter (fun row =>
      edge_metadata_owner db o t i == some row.owner_id && row.key == k) = [] := by
    rw [List.filter_eq_nil_iff]
    intro a ha
    simp only [Bool.and_eq_true, beq_iff_eq, not_and]
    exact h a ha
  have hkeep : db.edge_metadata.filter (fun row =>
      !(edge_metadata_owner db o t i == some row.owner_id && row.key == k)) =
      db.edge_metadata := by
    rw [List.filter_eq_self]
    intro a ha
    simp only [Bool.not_eq_true', Bool.eq_false_iff, ne_eq, Bool.and_eq_true, beq_iff_eq,
      not_and]
    exact h a ha
  constructor
  · simp only [PostgresTransaction.get_edge_metadata]
    rw [hfl]
    rfl
  · simp only [PostgresTransaction.delete_edge_metadata]
    rw [hfl, hkeep]
    rfl

/-- Edge metadata: when the edge exists, set is an upsert that always
succeeds, and a subsequent get observes exactly the value just written. -/
theorem edge_set_get (tx : PostgresTransaction) (db : DB) (o : Uuid) (t : String) (i : Uuid)
    (k : String) (v : JsonValue) (owner : Uuid)
    (howner : edge_metadata_owner db o t i = some owner) :
    (tx.set_edge_metadata db o t i k v).1 = .ok () ∧
    tx.get_edge_metadata (tx.set_edge_metadata db o t i k v).2 o t i k = .ok v := by
  have hpq : ∀ a : OwnedMetadataRow,
      (some owner == some a.owner_id && a.key == k) =
        (a.owner_id == owner && a.key == k) := by
    intro a
    by_cases h1 : a.owner_id = owner
    · simp [h1]
    · have hx : (a.owner_id == owner) = false := beq_eq_false_iff_ne.mpr h1
      have hy : (some owner == some a.owner_id) = false :=
        beq_eq_false_iff_ne.mpr (fun hz => h1 (Option.some_injective _ hz).symm)
      rw [hx, hy]
  constructor
  · simp only [PostgresTransaction.set_edge_metadata]
    rw [howner]
    rfl
  · simp only [PostgresTransaction.set_edge_metadata]
    rw [howner]
    dsimp only
    by_cases hc : (db.edge_metadata.any fun row => row.owner_id == owner && row.key == k) = true
    · rw [if_pos hc]
      simp only [PostgresTransaction.get_edge_metadata]
      rw [edge_metadata_owner_update, howner]
      rw [filter_map_ite (fun row => row.owner_id == owner && row.key == k)
        (fun row => some owner == some row.owner_id && row.key == k)
        (fun row => { row with value := v }) hpq (fun a => rfl) db.edge_metadata]
      have hne : db.edge_metadata.filter
          (fun row => some owner == some row.owner_id && row.key == k) ≠ [] := by
        obtain ⟨r, hr, hpr⟩ := List.any_eq_true.mp hc
        intro hnil
        exact absurd ((hpq r).trans hpr) (List.filter_eq_nil_iff.mp hnil r hr)
      obtain ⟨r0, tl, heq⟩ := List.exists_cons_of_ne_nil hne
      rw [heq]
      rfl
    · rw [if_neg hc]
      simp only [PostgresTransaction.get_edge_metadata]
      rw [edge_metadata_owner_update, howner]
      rw [List.filter_append]
      have hfl : db.edge_metadata.filter
          (fun row => some owner == some row.owner_id && row.key == k) = [] := by
        rw [List.filter_eq_nil_iff]
        intro a ha hp
        exact hc (List.any_eq_true.mpr ⟨a, ha, (hpq a) ▸ hp⟩)
      rw [hfl]
      simp [List.filter_cons, PostgresTransaction.handle_get_metadata_results]

/-- Edge metadata: after a delete, get fails exactly as for a key that was
never set. -/
theorem edge_delete_get (tx : PostgresTransaction) (db : DB) (o : Uuid) (t : String) (i : Uuid)
    (k : String) :
    tx.get_edge_metadata (tx.delete_edge_metadata db o t i k).2 o t i k =
      .error .MetadataDoesNotExist := by
  simp only [PostgresTransaction.delete_edge_metadata, PostgresTransaction.get_edge_metadata]
  rw [edge_metadata_owner_update]
  rw [filter_not_filter]
  rfl

/-- C5: for each of the four metadata scopes, get returns the stored value
when the row exists (in particular right after a set, which fully replaces
any previous value) and fails with `MetadataDoesNotExist` when it does not;
the shared update handler fails with `MetadataDoesNotExist` exactly when the
underlying write returned zero rows (so the always-one-row upserts always
succeed); delete fails with `MetadataDoesNotExist` when no row matched and
leaves the state unchanged; and after any delete a get of the same key is
indistinguishable from the key never having been set. -/
theorem metadata_store_spec (tx : PostgresTransaction) :
    (∀ results : List JsonValue,
      tx.handle_get_metadata_results results = .error .MetadataDoesNotExist ↔ results = []) ∧
    (∀ results : List Unit,
      tx.handle_update_metadata_results results = .error .MetadataDoesNotExist ↔
        results = []) ∧
    (∀ (db : DB) (k : String), (∀ row ∈ db.global_metadata, row.key ≠ k) →
      tx.get_global_metadata db k = .error .MetadataDoesNotExist ∧
      tx.delete_global_metadata db k = (.error .MetadataDoesNotExist, db)) ∧
    (∀ (db : DB) (k : String) (v : JsonValue),
      (tx.set_global_metadata db k v).1 = .ok () ∧
      tx.get_global_metadata (tx.set_global_metadata db k v).2 k = .ok v) ∧
    (∀ (db : DB) (k : String),
      tx.get_global_metadata (tx.delete_global_metadata db k).2 k =
        .error .MetadataDoesNotExist) ∧
    (∀ (db : DB) (o : Uuid) (k : String),
      (∀ row ∈ db.account_metadata, row.owner_id = o → row.key ≠ k) →
      tx.get_account_metadata db o k = .error .MetadataDoesNotExist ∧
      tx.delete_account_metadata db o k = (.error .MetadataDoesNotExist, db)) ∧
    (∀ (db : DB) (o : Uuid) (k : String) (v : JsonValue),
      (tx.set_account_metadata db o k v).1 = .ok () ∧
      tx.get_account_metadata (tx.set_account_metadata db o k v).2 o k = .ok v) ∧
    (∀ (db : DB) (o : Uuid) (k : String),
      tx.get_account_metadata (tx.delete_account_metadata db o k).2 o k =
        .error .MetadataDoesNotExist) ∧
    (∀ (db : DB) (o : Uuid) (k : String),
      (∀ row ∈ db.vertex_metadata, row.owner_id = o → row.key ≠ k) →
      tx.get_vertex_metadata db o k = .error .MetadataDoesNotExist ∧
      tx.delete_vertex_metadata db o k = (.error .MetadataDoesNotExist, db)) ∧
    (∀ (db : DB) (o : Uuid) (k : String) (v : JsonValue),
      (tx.set_vertex_metadata db o k v).1 = .ok () ∧
      tx.get_vertex_metadata (tx.set_vertex_metadata db o k v).2 o k = .ok v) ∧
    (∀ (db : DB) (o : Uuid) (k : String),
      tx.get_vertex_metadata (tx.delete_vertex_metadata db o k).2 o k =
        .error .MetadataDoesNotExist) ∧
    (∀ (db : DB) (o : Uuid) (t : String) (i : Uuid) (k : String),
      (∀ row ∈ db.edge_metadata,
        edge_metadata_owner db o t i = some row.owner_id → row.key ≠ k) →
      tx.get_edge_metadata db o t i k = .error .MetadataDoesNotExist ∧
      tx.delete_edge_metadata db o t i k = (.error .MetadataDoesNotExist, db)) ∧
    (∀ (db : DB) (o : Uuid) (t : String) (i : Uuid) (k : String) (v : JsonValue)
      (owner : Uuid), edge_metadata_owner db o t i = some owner →
      (tx.set_edge_metadata db o t i k v).1 = .ok () ∧
      tx.get_edge_metadata (tx.set_edge_metadata db o t i k v).2 o t i k = .ok v) ∧
    (∀ (db : DB) (o : Uuid) (t : String) (i : Uuid) (k : String),
      tx.get_edge_metadata (tx.delete_edge_metadata db o t i k).2 o t i k =
        .error .MetadataDoesNotExist) :=
  ⟨fun results => handle_get_error_iff tx results,
   fun results => handle_update_error_iff tx results,
   fun db k h => global_no_match tx db k h,
   fun db k v => global_set_get tx db k v,
   fun db k => global_delete_get tx db k,
   fun db o k h => account_no_match tx db o k h,
   fun db o k v => account_set_get tx db o k v,
   fun db o k => account_delete_get tx db o k,
   fun db o k h => vertex_no_match tx db o k h,
   fun db o k v => vertex_set_get tx db o k v,
   fun db o k => vertex_delete_get tx db o k,
   fun db o t i k h => edge_no_match tx db o t i k h,
   fun db o t i k v owner howner => edge_set_get tx db o t i k v owner howner,
   fun db o t i k => edge_delete_get tx db o t i k⟩

/-- Witness for C5: on the empty state, getting and deleting an unset global
key both fail with `MetadataDoesNotExist`, and a set-then-get round trip
returns the value just written. -/
theorem metadata_store_spec_witness :
    ((PostgresTransaction.mk 0).get_global_metadata DB.empty "k" =
      .error .MetadataDoesNotExist ∧
    (PostgresTransaction.mk 0).delete_global_metadata DB.empty "k" =
      (.error .MetadataDoesNotExist, DB.empty)) ∧
    (((PostgresTransaction.mk 0).set_global_metadata DB.empty "k" "v").1 = .ok () ∧
    (PostgresTransaction.mk 0).get_global_metadata
      ((PostgresTransaction.mk 0).set_global_metadata DB.empty "k" "v").2 "k" = .ok "v") :=
  ⟨(metadata_store_spec ⟨0⟩).2.2.1 DB.empty "k" (by simp [DB.empty]),
   (metadata_store_spec ⟨0⟩).2.2.2.1 DB.empty "k" "v"⟩

end IndraPg
